import Mathlib

/-!
Shallow embedding of the delfies breakpoint-detection tool.

The repository provides `delfies/delfies.py` (the orchestrator: `main`,
`run_breakpoint_detection`, `write_breakpoint_bed`) and the test suite
`tests/test_interval_utils.py`.  The module `delfies/interval_utils.py`
(class `Interval`, `parse_region_string`, `get_contiguous_ranges`) and the
detection modules (`breakpoint_foci`, `seq_utils`, `SAM_utils`) are not in
the sources; where a claim depends on them, the corresponding definitions
below are modelled from the spec (and pinned by the in-repo tests), each
marked `Modelled from the spec:` in its doc comment.  Everything else is a
direct translation of `delfies/delfies.py`.
-/

deriving instance DecidableEq for Except

namespace Delfies

/-- Modelled from the spec: `Orientation` enumeration `{forward, reverse}`
from `delfies.seq_utils` (module not under the sources). -/
inductive Orientation
  | forward
  | reverse
deriving DecidableEq

/-- Modelled from the spec: `BreakpointType` enumeration `{G2S, S2G}`
from the `delfies` package root (module not under the sources). -/
inductive BreakpointType
  | G2S
  | S2G
deriving DecidableEq

/-- String rendering of a breakpoint type, as interpolated into file names by
`main` in `delfies/delfies.py`. -/
def BreakpointType.str : BreakpointType → String
  | .G2S => "G2S"
  | .S2G => "S2G"

/-- Modelled from the spec: error taxonomy of section 7 — `FormatError` for
malformed region strings, `StateError` for a coordinate query on a
coordinate-less interval.  (The tests observe both as Python `ValueError`.) -/
inductive DelfiesError
  | formatError (msg : String)
  | stateError (msg : String)
deriving DecidableEq

/-- Modelled from the spec: the `Interval` value type of
`delfies.interval_utils` — a contig name plus optional start/end bounds.
The Python attribute `end` is a Lean keyword, so it is called `stop` here
(the name the tests use for the parsed third component). -/
structure Interval where
  contig : String
  start : Option Int
  stop : Option Int
deriving DecidableEq

/-- Modelled from the spec: `has_coordinates()` is true iff both bounds are
present. -/
def Interval.has_coordinates (i : Interval) : Bool :=
  i.start.isSome && i.stop.isSome

/-- Message of the StateError raised by `spans` on a coordinate-less interval. -/
def spansErrorMsg : String := "Interval lacks coordinates"

/-- Modelled from the spec: `Interval.spans(position)` — fails with a
StateError when a bound is absent; otherwise true exactly on the closed
range from `start` to `end` (spec section 8 and the in-repo test
`test_interval_spanning_valid_coordinates`, which asserts
`spans(end) == True`). -/
def Interval.spans (i : Interval) (position : Int) : Except DelfiesError Bool :=
  match i.start, i.stop with
  | some s, some e => .ok (decide (s ≤ position ∧ position ≤ e))
  | _, _ => .error (.stateError spansErrorMsg)

/-- Split a character list at every occurrence of `c` (the model of Python
`str.split` with a one-character separator): `splitChar ':' "a:b".data`
is `["a".data, "b".data]`, and a list without `c` yields one group. -/
def splitChar (c : Char) : List Char → List (List Char)
  | [] => [[]]
  | x :: xs =>
    let rest := splitChar c xs
    if x = c then [] :: rest
    else
      match rest with
      | [] => [[x]]
      | g :: gs => (x :: g) :: gs

/-- Value of a decimal digit character, `none` on a non-digit. -/
def digitVal (c : Char) : Option Nat :=
  if '0' ≤ c ∧ c ≤ '9' then some (c.toNat - '0'.toNat) else none

/-- Left-to-right accumulation of a decimal numeral (model of Python `int`
on a digits-only string). -/
def digitsValAux : Nat → List Char → Option Nat
  | acc, [] => some acc
  | acc, c :: cs =>
    match digitVal c with
    | some d => digitsValAux (acc * 10 + d) cs
    | none => none

/-- Value of a non-empty digits-only character list; `none` otherwise. -/
def digitsVal : List Char → Option Nat
  | [] => none
  | c :: cs => digitsValAux 0 (c :: cs)

/-- Third stage of region-string parsing: both coordinate components must
be integers. -/
def parseStartStop (s : String) (contigChars startChars stopChars : List Char) :
    Except DelfiesError (String × Int × Int) :=
  match digitsVal startChars, digitsVal stopChars with
  | some a, some b => .ok (String.mk contigChars, (a : Int), (b : Int))
  | _, _ => .error (.formatError s)

/-- Second stage of region-string parsing: the coordinate part must hold
exactly one `-`. -/
def parseCoords (s : String) (contigChars coordChars : List Char) :
    Except DelfiesError (String × Int × Int) :=
  match splitChar '-' coordChars with
  | [startChars, stopChars] => parseStartStop s contigChars startChars stopChars
  | _ => .error (.formatError s)

/-- Modelled from the spec: `parse_region_string` of
`delfies.interval_utils` — a region string is `contig:start-end` with
exactly one `:`, exactly one `-` in the coordinate part and integer
components; any other shape is a FormatError. -/
def parse_region_string (s : String) : Except DelfiesError (String × Int × Int) :=
  match splitChar ':' s.data with
  | [contigChars, coordChars] => parseCoords s contigChars coordChars
  | _ => .error (.formatError s)

/-- Modelled from the spec: `Interval.from_region_string` builds the
interval from a parsed `contig:start-end` region string, propagating the
parser's FormatError. -/
def Interval.from_region_string (s : String) : Except DelfiesError Interval :=
  (parse_region_string s).map fun r => ⟨r.1, some r.2.1, some r.2.2⟩

/-- Fuel-driven digit expansion: with fuel at least the number itself this
computes the decimal digits, most significant first. -/
def natDigitsF : Nat → Nat → List Char
  | 0, n => [Nat.digitChar n]
  | f + 1, n =>
    if n < 10 then [Nat.digitChar n]
    else natDigitsF f (n / 10) ++ [Nat.digitChar (n % 10)]

/-- Decimal digits of a natural number, most significant first
(model of Python `str` on a non-negative `int`). -/
def natDigits (n : Nat) : List Char :=
  natDigitsF n n

/-- Decimal rendering of an integer (model of Python `str` on an `int`). -/
def intToStr (i : Int) : String :=
  if i < 0 then String.mk ('-' :: natDigits i.natAbs) else String.mk (natDigits i.natAbs)

/-- Modelled from the spec: `Interval.to_region_string` serializes to
`contig:start-end` when both bounds are present and to the bare contig
otherwise (in-repo test `test_interval_to_region_string`). -/
def Interval.to_region_string (i : Interval) : String :=
  match i.start, i.stop with
  | some a, some b => i.contig ++ ":" ++ intToStr a ++ "-" ++ intToStr b
  | _, _ => i.contig

/-- One walk step of the contiguous-range merger: `start` opens the current
range, `cur` is the last value taken into it, and a new range opens whenever
the gap to the next (sorted) value exceeds the tolerance. -/
def gcrAux (tolerance : Int) : Int → Int → List Int → List (Int × Int)
  | start, cur, [] => [(start, cur)]
  | start, cur, x :: xs =>
    if x - cur > tolerance then (start, cur) :: gcrAux tolerance x x xs
    else gcrAux tolerance start x xs

/-- Modelled from the spec: `get_contiguous_ranges` of
`delfies.interval_utils` (section 4.2) — sort the input set of integers
ascending and walk once, opening a new inclusive range whenever the gap to
the previous value exceeds the tolerance.  The Python set argument is
modelled as a list deduplicated before sorting. -/
def get_contiguous_ranges (nums : List Int) (tolerance : Int) : List (Int × Int) :=
  match List.insertionSort (fun a b => a ≤ b) nums.dedup with
  | [] => []
  | x :: xs => gcrAux tolerance x x xs

/-- Modelled from the spec: `MaximalFocus` — the chosen representative of one
cluster (`delfies.breakpoint_foci`, not under the sources).  `delfies.py`
reads `focus.contig`, `focus.start`, `focus.end`, `interval[0]`,
`interval[1]`, `orientation`, `max_value` and assigns `breakpoint_type`. -/
structure MaximalFocus where
  focus : Interval
  interval : Int × Int
  orientation : Orientation
  max_value : Nat
  breakpoint_type : BreakpointType
deriving DecidableEq

/-- The descending-support comparison used by
`sorted(maximal_foci, key=lambda e: e.max_value, reverse=True)`. -/
def maxValueGE (a b : MaximalFocus) : Prop :=
  b.max_value ≤ a.max_value

instance : DecidableRel maxValueGE := fun _ _ => Nat.decLe _ _

instance : IsTotal MaximalFocus maxValueGE :=
  ⟨fun a b => Nat.le_total b.max_value a.max_value⟩

instance : IsTrans MaximalFocus maxValueGE :=
  ⟨fun _ _ _ hab hbc => Nat.le_trans hbc hab⟩

/-- Python `sorted(..., key=lambda e: e.max_value, reverse=True)` is a stable
sort by descending `max_value`; insertion sort under `maxValueGE` (which
keeps an element before every element it ties with) is the same function. -/
def sorted_by_max_value_desc (l : List MaximalFocus) : List MaximalFocus :=
  List.insertionSort maxValueGE l

/-- The in-place tagging loop of `run_breakpoint_detection`:
`m_f.breakpoint_type = detection_params.breakpoint_type`. -/
def set_breakpoint_type (bt : BreakpointType) (f : MaximalFocus) : MaximalFocus :=
  { f with breakpoint_type := bt }

/-- Tail of `run_breakpoint_detection` (delfies/delfies.py lines 88-97):
clustering and peak selection live in the absent `breakpoint_foci` module,
so their result — the list of per-cluster peak foci in detection order — is
the `peaks` argument; the code then sorts it by `max_value` descending and
tags every element with the current breakpoint type. -/
def run_breakpoint_detection_tail (bt : BreakpointType) (peaks : List MaximalFocus) :
    List MaximalFocus :=
  (sorted_by_max_value_desc peaks).map (set_breakpoint_type bt)

/-- The aggregation loop of `main` (delfies/delfies.py lines 256-274):
`maximal_foci += run_breakpoint_detection(...)` across the analysed
breakpoint types, each pass abstracted by its type and its peak list. -/
def aggregate_maximal_foci (passes : List (BreakpointType × List MaximalFocus)) :
    List MaximalFocus :=
  passes.foldl (fun acc p => acc ++ run_breakpoint_detection_tail p.1 p.2) []

/-- Modelled from the spec: `ID_DELIM` of the `delfies` package root (not
under the sources); only its use as a fixed separator in output names
matters here. -/
def ID_DELIM : String := "__"

/-- Python string repetition `s * n` (`n` copies of `s`). -/
def pyStrMul (s : String) (n : Nat) : String :=
  String.join (List.replicate n s)

/-- `BreakpointDetectionParams` as constructed and mutated by `main` in
`delfies/delfies.py`.  The dataclass lives in the absent `breakpoint_foci`
module; `main` constructs it without `breakpoint_type`/`ofname_base` and the
orchestrator loop assigns them before each per-type run, so those two fields
are `Option`s, `none` until assigned. -/
structure BreakpointDetectionParams where
  bam_fname : String
  telomere_seqs : Orientation → String
  telo_array_size : Nat
  max_edit_distance : Nat
  clustering_threshold : Int
  min_mapq : Nat
  read_filter_flag : Nat
  min_supporting_reads : Nat
  breakpoint_type : Option BreakpointType
  ofname_base : Option String

/-- The fields of `BreakpointDetectionParams` that the orchestrator loop of
`main` never assigns (all of them except `breakpoint_type` and
`ofname_base`). -/
def fixed_fields (p : BreakpointDetectionParams) :
    String × (Orientation → String) × Nat × Nat × Int × Nat × Nat × Nat :=
  (p.bam_fname, p.telomere_seqs, p.telo_array_size, p.max_edit_distance,
    p.clustering_threshold, p.min_mapq, p.read_filter_flag, p.min_supporting_reads)

/-- The mutable state threaded through the per-breakpoint-type loop of
`main`: the shared parameter object, the `seq_regions` variable (rebound
inside the G2S branch), and the accumulated maximal foci. -/
structure LoopState where
  detection_params : BreakpointDetectionParams
  seq_regions : List Interval
  maximal_foci : List MaximalFocus

/-- Observable record of one per-breakpoint-type pass: which type ran, the
parameter value handed to `run_breakpoint_detection`, and the region list it
scanned. -/
structure PassRecord where
  bt : BreakpointType
  params_used : BreakpointDetectionParams
  regions_scanned : List Interval

/-- One iteration of the per-breakpoint-type loop of `main`
(delfies/delfies.py lines 256-274).  `find_all_occurrences_in_genome` (from
the absent `seq_utils` module) and the clustering/peak-selection pipeline
feeding `run_breakpoint_detection_tail` are abstract arguments; `Genome`
abstracts the indexed Fasta.  The G2S branch builds the telomere query as
the forward motif repeated `telo_array_size` times and REBINDS `seq_regions`
to the finder's output with window half-width 20. -/
def mainStep {Genome : Type}
    (find_all_occurrences_in_genome : String → Genome → List Interval → Nat → List Interval)
    (cluster_peaks : BreakpointDetectionParams → List Interval → List MaximalFocus)
    (genome_fasta : Genome) (ofname_base : String)
    (st : LoopState) (bt : BreakpointType) : LoopState × PassRecord :=
  let params :=
    { st.detection_params with
      breakpoint_type := some bt,
      ofname_base := some (ofname_base ++ ID_DELIM ++ bt.str) }
  let seq_regions :=
    if bt = BreakpointType.G2S then
      find_all_occurrences_in_genome
        (pyStrMul (params.telomere_seqs Orientation.forward) params.telo_array_size)
        genome_fasta st.seq_regions 20
    else st.seq_regions
  let new_foci := run_breakpoint_detection_tail bt (cluster_peaks params seq_regions)
  (⟨params, seq_regions, st.maximal_foci ++ new_foci⟩,
    ⟨bt, params, seq_regions⟩)

/-- The whole loop `for breakpoint_type_to_analyse in breakpoint_types_to_analyse`
of `main`, also returning the per-pass records in order. -/
def runPasses {Genome : Type}
    (find_all_occurrences_in_genome : String → Genome → List Interval → Nat → List Interval)
    (cluster_peaks : BreakpointDetectionParams → List Interval → List MaximalFocus)
    (genome_fasta : Genome) (ofname_base : String) :
    LoopState → List BreakpointType → LoopState × List PassRecord
  | st, [] => (st, [])
  | st, bt :: rest =>
    let step := mainStep find_all_occurrences_in_genome cluster_peaks genome_fasta
      ofname_base st bt
    let next := runPasses find_all_occurrences_in_genome cluster_peaks genome_fasta
      ofname_base step.1 rest
    (next.1, step.2 :: next.2)

lemma fixed_fields_mainStep {Genome : Type}
    (finder : String → Genome → List Interval → Nat → List Interval)
    (cluster_peaks : BreakpointDetectionParams → List Interval → List MaximalFocus)
    (genome : Genome) (ofname_base : String) (st : LoopState) (bt : BreakpointType) :
    fixed_fields ((mainStep finder cluster_peaks genome ofname_base st bt).1.detection_params)
      = fixed_fields st.detection_params := rfl

lemma fixed_fields_runPasses {Genome : Type}
    (finder : String → Genome → List Interval → Nat → List Interval)
    (cluster_peaks : BreakpointDetectionParams → List Interval → List MaximalFocus)
    (genome : Genome) (ofname_base : String) :
    ∀ (bts : List BreakpointType) (st : LoopState),
      fixed_fields ((runPasses finder cluster_peaks genome ofname_base st bts).1.detection_params)
        = fixed_fields st.detection_params
  | [], _ => rfl
  | _ :: rest, st =>
    (fixed_fields_runPasses finder cluster_peaks genome ofname_base rest _).trans
      (fixed_fields_mainStep finder cluster_peaks genome ofname_base st _)

/-- C8: in a G2S pass the telomere search query is the forward telomere unit
repeated `telo_array_size` times and the region universe is replaced by the
occurrence finder's output (window half-width 20) computed over the previous
region universe; an S2G pass scans — and leaves — the previous region
universe unchanged. -/
theorem g2s_query_and_region_replacement {Genome : Type}
    (finder : String → Genome → List Interval → Nat → List Interval)
    (cluster_peaks : BreakpointDetectionParams → List Interval → List MaximalFocus)
    (genome : Genome) (ofname_base : String) (st : LoopState) :
    ((mainStep finder cluster_peaks genome ofname_base st BreakpointType.G2S).2.regions_scanned
        = finder
            (pyStrMul (st.detection_params.telomere_seqs Orientation.forward)
              st.detection_params.telo_array_size)
            genome st.seq_regions 20)
      ∧ ((mainStep finder cluster_peaks genome ofname_base st BreakpointType.G2S).1.seq_regions
          = finder
              (pyStrMul (st.detection_params.telomere_seqs Orientation.forward)
                st.detection_params.telo_array_size)
              genome st.seq_regions 20)
      ∧ ((mainStep finder cluster_peaks genome ofname_base st BreakpointType.S2G).2.regions_scanned
          = st.seq_regions)
      ∧ ((mainStep finder cluster_peaks genome ofname_base st BreakpointType.S2G).1.seq_regions
          = st.seq_regions) :=
  ⟨rfl, rfl, rfl, rfl⟩

/-- C9: across the whole per-breakpoint-type loop the orchestrator assigns
only the breakpoint-type and output-name-stem fields of the shared
`BreakpointDetectionParams`; the alignment source, telomere motifs,
repeat-array size, max edit distance, clustering tolerance, min mapping
quality, read filter flags and min supporting reads are unchanged after any
sequence of passes. -/
theorem loop_mutates_only_type_and_ofname {Genome : Type}
    (finder : String → Genome → List Interval → Nat → List Interval)
    (cluster_peaks : BreakpointDetectionParams → List Interval → List MaximalFocus)
    (genome : Genome) (ofname_base : String) (st : LoopState)
    (bts : List BreakpointType) (bt : BreakpointType) :
    (fixed_fields ((runPasses finder cluster_peaks genome ofname_base st bts).1.detection_params)
        = fixed_fields st.detection_params)
      ∧ ((mainStep finder cluster_peaks genome ofname_base st bt).1.detection_params.breakpoint_type
          = some bt)
      ∧ ((mainStep finder cluster_peaks genome ofname_base st bt).1.detection_params.ofname_base
          = some (ofname_base ++ ID_DELIM ++ bt.str)) :=
  ⟨fixed_fields_runPasses finder cluster_peaks genome ofname_base bts st, rfl, rfl⟩

/-- C10: when G2S is analysed before another breakpoint type, the later pass
scans the telomere-narrowed expanded windows produced for G2S — the
rebinding of `seq_regions` in the G2S branch persists across loop
iterations — so both passes of a [G2S, S2G] run scan the finder's output,
not the originally determined region universe. -/
theorem later_pass_scans_g2s_narrowed_regions {Genome : Type}
    (finder : String → Genome → List Interval → Nat → List Interval)
    (cluster_peaks : BreakpointDetectionParams → List Interval → List MaximalFocus)
    (genome : Genome) (ofname_base : String) (st : LoopState) :
    ((runPasses finder cluster_peaks genome ofname_base st
          [BreakpointType.G2S, BreakpointType.S2G]).2.map PassRecord.regions_scanned)
      = [finder
            (pyStrMul (st.detection_params.telomere_seqs Orientation.forward)
              st.detection_params.telo_array_size)
            genome st.seq_regions 20,
          finder
            (pyStrMul (st.detection_params.telomere_seqs Orientation.forward)
              st.detection_params.telo_array_size)
            genome st.seq_regions 20] :=
  rfl

/-- C2 counterexample: on the test interval `chr1:2-200` the code's `spans`
returns true at `end` (the in-repo test asserts exactly this), so the bounds
are not half-open `[start, end)`. -/
theorem spans_end_true_counterexample :
    Interval.spans ⟨"chr1", some 2, some 200⟩ 200 = Except.ok true
      ∧ Interval.spans ⟨"chr1", some 2, some 200⟩ 200 ≠ Except.ok false := by
  decide

/-- C2 (amended): interval bounds are inclusive on both sides — for every
interval with both coordinates present (and `start ≤ end`), `spans(start)`
and `spans(end)` are both true. -/
theorem spans_inclusive_at_both_endpoints (c : String) (s e : Int) (h : s ≤ e) :
    Interval.spans ⟨c, some s, some e⟩ s = Except.ok true
      ∧ Interval.spans ⟨c, some s, some e⟩ e = Except.ok true := by
  constructor <;> simp [Interval.spans] <;> omega

theorem spans_inclusive_at_both_endpoints_witness :
    Interval.spans ⟨"chr1", some 2, some 200⟩ 2 = Except.ok true
      ∧ Interval.spans ⟨"chr1", some 2, some 200⟩ 200 = Except.ok true :=
  spans_inclusive_at_both_endpoints "chr1" 2 200 (by decide)

/-- C3: for an interval with both coordinates present, `spans(p)` is true
exactly for `p` in the inclusive range `[start, end]` — in particular true
at both endpoints when `start ≤ end` — and false at `start - 1` and at
`end + 1`. -/
theorem spans_closed_range_characterization (c : String) (s e p : Int) (h : s ≤ e) :
    (Interval.spans ⟨c, some s, some e⟩ p = Except.ok true ↔ s ≤ p ∧ p ≤ e)
      ∧ Interval.spans ⟨c, some s, some e⟩ s = Except.ok true
      ∧ Interval.spans ⟨c, some s, some e⟩ e = Except.ok true
      ∧ Interval.spans ⟨c, some s, some e⟩ (s - 1) = Except.ok false
      ∧ Interval.spans ⟨c, some s, some e⟩ (e + 1) = Except.ok false := by
  refine ⟨by simp [Interval.spans], ?_, ?_, ?_, ?_⟩ <;> simp [Interval.spans] <;> omega

theorem spans_closed_range_characterization_witness :
    (Interval.spans ⟨"chr1", some 2, some 200⟩ 5 = Except.ok true ↔ (2 : Int) ≤ 5 ∧ (5 : Int) ≤ 200)
      ∧ Interval.spans ⟨"chr1", some 2, some 200⟩ 2 = Except.ok true
      ∧ Interval.spans ⟨"chr1", some 2, some 200⟩ 200 = Except.ok true
      ∧ Interval.spans ⟨"chr1", some 2, some 200⟩ (2 - 1) = Except.ok false
      ∧ Interval.spans ⟨"chr1", some 2, some 200⟩ (200 + 1) = Except.ok false :=
  spans_closed_range_characterization "chr1" 2 200 5 (by decide)

/-- C5: the malformed region strings "chr1:2--200" and "chr1::2-200" are
rejected with a FormatError, both by the bare parser and by Interval
construction from a region string. -/
theorem invalid_region_strings_fail :
    parse_region_string "chr1:2--200" = Except.error (.formatError "chr1:2--200")
      ∧ parse_region_string "chr1::2-200" = Except.error (.formatError "chr1::2-200")
      ∧ Interval.from_region_string "chr1:2--200" = Except.error (.formatError "chr1:2--200")
      ∧ Interval.from_region_string "chr1::2-200" = Except.error (.formatError "chr1::2-200") := by
  decide

/-- C6: for every interval lacking at least one coordinate, `spans` fails
with a StateError for any queried position. -/
theorem spans_without_coordinates_state_error (i : Interval) (p : Int)
    (h : i.has_coordinates = false) :
    i.spans p = Except.error (.stateError spansErrorMsg) := by
  obtain ⟨c, s, e⟩ := i
  cases s <;> cases e <;> simp_all [Interval.has_coordinates, Interval.spans]

theorem spans_without_coordinates_state_error_witness :
    Interval.spans ⟨"chr1", none, some 200⟩ 2 = Except.error (.stateError spansErrorMsg) :=
  spans_without_coordinates_state_error ⟨"chr1", none, some 200⟩ 2 (by decide)

lemma gcrAux_spec (t : Int) (ht : 0 ≤ t) :
    ∀ (l : List Int) (start cur : Int), start ≤ cur → List.Chain (· ≤ ·) cur l →
      (∀ p ∈ gcrAux t start cur l, p.1 ≤ p.2)
        ∧ List.Chain' (fun p q : Int × Int => p.2 + t < q.1) (gcrAux t start cur l)
        ∧ ∃ b rest, gcrAux t start cur l = (start, b) :: rest
  | [], start, cur, hsc, _ => by
    refine ⟨?_, ?_, cur, [], rfl⟩ <;> simp [gcrAux, hsc]
  | x :: xs, start, cur, hsc, hch => by
    obtain ⟨hcx, hxs⟩ := List.chain_cons.mp hch
    by_cases hgap : x - cur > t
    · obtain ⟨ihb, ihc, b, rest, heq⟩ := gcrAux_spec t ht xs x x le_rfl hxs
      have hstep : gcrAux t start cur (x :: xs) = (start, cur) :: gcrAux t x x xs := by
        simp [gcrAux, hgap]
      rw [hstep]
      refine ⟨?_, ?_, cur, gcrAux t x x xs, rfl⟩
      · intro p hp
        rcases List.mem_cons.mp hp with h | h
        · simp [h, hsc]
        · exact ihb p h
      · rw [heq]
        exact List.chain'_cons.mpr ⟨by omega, heq ▸ ihc⟩
    · have hstep : gcrAux t start cur (x :: xs) = gcrAux t start x xs := by
        simp [gcrAux, hgap]
      exact hstep ▸ gcrAux_spec t ht xs start x (le_trans hsc hcx) hxs

lemma get_contiguous_ranges_props (nums : List Int) (t : Int) (ht : 0 ≤ t) :
    (∀ p ∈ get_contiguous_ranges nums t, p.1 ≤ p.2)
      ∧ List.Chain' (fun p q : Int × Int => p.2 + t < q.1) (get_contiguous_ranges nums t) := by
  unfold get_contiguous_ranges
  rcases hs : List.insertionSort (fun a b => a ≤ b) nums.dedup with _ | ⟨x, xs⟩
  · simp
  · have hsorted := List.sorted_insertionSort (fun a b : Int => a ≤ b) nums.dedup
    rw [hs] at hsorted
    have hchain : List.Chain (· ≤ ·) x xs :=
      (List.chain'_iff_pairwise.mpr hsorted : List.Chain' _ (x :: xs))
    obtain ⟨h1, h2, _⟩ := gcrAux_spec t ht xs x x le_rfl hchain
    exact ⟨h1, h2⟩

lemma get_contiguous_ranges_set_invariant (l₁ l₂ : List Int) (t : Int)
    (hset : l₁.toFinset = l₂.toFinset) :
    get_contiguous_ranges l₁ t = get_contiguous_ranges l₂ t := by
  have hperm : l₁.dedup.Perm l₂.dedup :=
    (List.perm_ext_iff_of_nodup (List.nodup_dedup l₁) (List.nodup_dedup l₂)).mpr fun a => by
      rw [List.mem_dedup, List.mem_dedup, ← List.mem_toFinset, ← List.mem_toFinset, hset]
  have hsorteq :
      List.insertionSort (fun a b : Int => a ≤ b) l₁.dedup
        = List.insertionSort (fun a b : Int => a ≤ b) l₂.dedup :=
    List.eq_of_perm_of_sorted
      (((List.perm_insertionSort _ l₁.dedup).trans hperm).trans
        (List.perm_insertionSort _ l₂.dedup).symm)
      (List.sorted_insertionSort _ l₁.dedup) (List.sorted_insertionSort _ l₂.dedup)
  unfold get_contiguous_ranges
  rw [hsorteq]

/-- C7: the contiguous-range merger at tolerance 1 maps `{1,2,3,4}` to
`[(1,4)]`, `{1,2,5,6,7,8}` to `[(1,2),(5,8)]` and any singleton `{v}` to the
degenerate range `[(v,v)]`; input duplicates and order are irrelevant, and
the output ranges are inclusive (`fst ≤ snd`) and ascending (separated by
gaps exceeding the tolerance). -/
theorem contiguous_ranges_spec (v : Int) (l₁ l₂ nums : List Int) (t t2 : Int)
    (hset : l₁.toFinset = l₂.toFinset) (ht : 0 ≤ t2) :
    get_contiguous_ranges [1, 2, 3, 4] 1 = [(1, 4)]
      ∧ get_contiguous_ranges [1, 2, 5, 6, 7, 8] 1 = [(1, 2), (5, 8)]
      ∧ get_contiguous_ranges [v] 1 = [(v, v)]
      ∧ get_contiguous_ranges l₁ t = get_contiguous_ranges l₂ t
      ∧ (∀ p ∈ get_contiguous_ranges nums t2, p.1 ≤ p.2)
      ∧ List.Chain' (fun p q : Int × Int => p.2 + t2 < q.1) (get_contiguous_ranges nums t2) := by
  refine ⟨by decide, by decide, ?_, get_contiguous_ranges_set_invariant l₁ l₂ t hset,
    (get_contiguous_ranges_props nums t2 ht).1, (get_contiguous_ranges_props nums t2 ht).2⟩
  simp [get_contiguous_ranges, List.dedup, List.pwFilter, gcrAux]

theorem contiguous_ranges_spec_witness :
    get_contiguous_ranges [1, 2, 3, 4] 1 = [(1, 4)]
      ∧ get_contiguous_ranges [1, 2, 5, 6, 7, 8] 1 = [(1, 2), (5, 8)]
      ∧ get_contiguous_ranges [42] 1 = [(42, 42)]
      ∧ get_contiguous_ranges [1, 2, 1, 8, 7, 6, 5, 2] 1
          = get_contiguous_ranges [8, 7, 6, 5, 2, 1] 1
      ∧ (∀ p ∈ get_contiguous_ranges [9, 1, 5] 2, p.1 ≤ p.2)
      ∧ List.Chain' (fun p q : Int × Int => p.2 + 2 < q.1) (get_contiguous_ranges [9, 1, 5] 2) :=
  contiguous_ranges_spec 42 [1, 2, 1, 8, 7, 6, 5, 2] [8, 7, 6, 5, 2, 1] [9, 1, 5] 1 2
    (by decide) (by decide)

lemma digitChar_digit : ∀ m : Nat, m < 10 → '0' ≤ Nat.digitChar m ∧ Nat.digitChar m ≤ '9' := by
  decide

lemma digitVal_digitChar : ∀ m : Nat, m < 10 → digitVal (Nat.digitChar m) = some m := by
  decide

lemma natDigitsF_digits : ∀ (f n : Nat), n ≤ f →
    ∀ ch ∈ natDigitsF f n, '0' ≤ ch ∧ ch ≤ '9'
  | 0, n, hn => by
    have : n = 0 := Nat.le_zero.mp hn
    subst this
    intro ch hch
    rw [natDigitsF, List.mem_singleton] at hch
    subst hch
    exact digitChar_digit 0 (by omega)
  | f + 1, n, hn => by
    intro ch hch
    rw [natDigitsF] at hch
    by_cases h10 : n < 10
    · rw [if_pos h10, List.mem_singleton] at hch
      subst hch
      exact digitChar_digit n h10
    · rw [if_neg h10, List.mem_append] at hch
      rcases hch with h | h
      · exact natDigitsF_digits f (n / 10) (by omega) ch h
      · rw [List.mem_singleton] at h
        subst h
        exact digitChar_digit (n % 10) (by omega)

lemma natDigitsF_ne_nil (f n : Nat) : natDigitsF f n ≠ [] := by
  cases f with
  | zero => simp [natDigitsF]
  | succ f =>
    rw [natDigitsF]
    split <;> simp

lemma digitsValAux_cons_digit (acc : Nat) (ch : Char) (cs : List Char) (d : Nat)
    (h : digitVal ch = some d) :
    digitsValAux acc (ch :: cs) = digitsValAux (acc * 10 + d) cs := by
  simp [digitsValAux, h]

lemma digitsValAux_append (acc : Nat) : ∀ (l₁ l₂ : List Char),
    digitsValAux acc (l₁ ++ l₂)
      = match digitsValAux acc l₁ with
        | some m => digitsValAux m l₂
        | none => none
  | [], _ => by simp [digitsValAux]
  | ch :: cs, l₂ => by
    cases h : digitVal ch with
    | none => simp [digitsValAux, h]
    | some d =>
      rw [List.cons_append, digitsValAux_cons_digit _ _ _ _ h,
        digitsValAux_cons_digit _ _ _ _ h, digitsValAux_append _ cs l₂]

lemma natDigitsF_val : ∀ (f n acc : Nat), n ≤ f →
    digitsValAux acc (natDigitsF f n) = some (acc * 10 ^ (natDigitsF f n).length + n)
  | 0, n, acc, hn => by
    have : n = 0 := Nat.le_zero.mp hn
    subst this
    rw [natDigitsF, digitsValAux_cons_digit _ _ _ 0 (digitVal_digitChar 0 (by omega))]
    simp [digitsValAux]
  | f + 1, n, acc, hn => by
    rw [natDigitsF]
    by_cases h10 : n < 10
    · rw [if_pos h10, digitsValAux_cons_digit _ _ _ n (digitVal_digitChar n h10)]
      simp [digitsValAux]
    · rw [if_neg h10, digitsValAux_append, natDigitsF_val f (n / 10) acc (by omega)]
      show digitsValAux (acc * 10 ^ (natDigitsF f (n / 10)).length + n / 10)
          [(n % 10).digitChar]
        = some (acc * 10 ^ (natDigitsF f (n / 10) ++ [(n % 10).digitChar]).length + n)
      rw [digitsValAux_cons_digit _ _ _ (n % 10) (digitVal_digitChar (n % 10) (by omega))]
      show some ((acc * 10 ^ (natDigitsF f (n / 10)).length + n / 10) * 10 + n % 10) = _
      rw [List.length_append, List.length_singleton, pow_succ]
      have hdm : n / 10 * 10 + n % 10 = n := by omega
      congr 1
      rw [Nat.add_mul, Nat.add_assoc, hdm, Nat.mul_assoc]

lemma digitsVal_natDigits (n : Nat) : digitsVal (natDigits n) = some n := by
  have hv := natDigitsF_val n n 0 le_rfl
  rw [natDigits]
  cases h : natDigitsF n n with
  | nil => exact absurd h (natDigitsF_ne_nil n n)
  | cons ch cs =>
    rw [h] at hv
    show digitsValAux 0 (ch :: cs) = some n
    rw [hv]
    simp

lemma digit_ne_sep {ch : Char} (h1 : '0' ≤ ch) (h2 : ch ≤ '9') : ch ≠ ':' ∧ ch ≠ '-' := by
  constructor <;> rintro rfl <;> revert h1 h2 <;> decide

lemma splitChar_of_not_mem {c : Char} : ∀ (l : List Char), c ∉ l → splitChar c l = [l]
  | [], _ => rfl
  | x :: xs, h => by
    have hx : ¬(x = c) := fun he => h (by simp [he])
    have ih := splitChar_of_not_mem xs fun hm => h (List.mem_cons_of_mem _ hm)
    simp [splitChar, hx, ih]

lemma splitChar_append {c : Char} : ∀ (l₁ l₂ : List Char), c ∉ l₁ →
    splitChar c (l₁ ++ c :: l₂) = l₁ :: splitChar c l₂
  | [], l₂, _ => by simp [splitChar]
  | x :: xs, l₂, h => by
    have hx : ¬(x = c) := fun he => h (by simp [he])
    have ih := splitChar_append xs l₂ fun hm => h (List.mem_cons_of_mem _ hm)
    show (let rest := splitChar c (xs ++ c :: l₂);
        if x = c then [] :: rest
        else
          match rest with
          | [] => [[x]]
          | g :: gs => (x :: g) :: gs) = (x :: xs) :: splitChar c l₂
    rw [ih]
    simp [hx]

lemma intToStr_nonneg {a : Int} (h : 0 ≤ a) : intToStr a = String.mk (natDigits a.natAbs) := by
  rw [intToStr, if_neg (by omega)]

lemma parse_to_region_string (c : String) (a b : Int) (ha : 0 ≤ a) (hb : 0 ≤ b)
    (hc : ':' ∉ c.data) :
    parse_region_string (Interval.to_region_string ⟨c, some a, some b⟩)
      = Except.ok (c, a, b) := by
  have hda := natDigitsF_digits a.natAbs a.natAbs le_rfl
  have hdb := natDigitsF_digits b.natAbs b.natAbs le_rfl
  have hdata : (Interval.to_region_string ⟨c, some a, some b⟩).data
      = c.data ++ ':' :: (natDigits a.natAbs ++ '-' :: natDigits b.natAbs) := by
    show (c ++ ":" ++ intToStr a ++ "-" ++ intToStr b).data = _
    rw [intToStr_nonneg ha, intToStr_nonneg hb]
    show c.data ++ [':'] ++ natDigits a.natAbs ++ ['-'] ++ natDigits b.natAbs = _
    simp [natDigits]
  have hnoA : '-' ∉ natDigits a.natAbs := fun hm =>
    (digit_ne_sep (hda _ hm).1 (hda _ hm).2).2 rfl
  have hnoB : '-' ∉ natDigits b.natAbs := fun hm =>
    (digit_ne_sep (hdb _ hm).1 (hdb _ hm).2).2 rfl
  have hnoColon : ':' ∉ natDigits a.natAbs ++ '-' :: natDigits b.natAbs := by
    intro hmem
    rcases List.mem_append.mp hmem with h | h
    · exact (digit_ne_sep (hda _ h).1 (hda _ h).2).1 rfl
    · rcases List.mem_cons.mp h with h | h
      · exact absurd h.symm (by decide)
      · exact (digit_ne_sep (hdb _ h).1 (hdb _ h).2).1 rfl
  rw [parse_region_string, hdata, splitChar_append _ _ hc, splitChar_of_not_mem _ hnoColon]
  show parseCoords (Interval.to_region_string ⟨c, some a, some b⟩) c.data
      (natDigits a.natAbs ++ '-' :: natDigits b.natAbs) = Except.ok (c, a, b)
  rw [parseCoords, splitChar_append _ _ hnoA, splitChar_of_not_mem _ hnoB]
  show parseStartStop (Interval.to_region_string ⟨c, some a, some b⟩) c.data
      (natDigits a.natAbs) (natDigits b.natAbs) = Except.ok (c, a, b)
  rw [parseStartStop, digitsVal_natDigits, digitsVal_natDigits]
  show Except.ok (String.mk c.data, ((a.natAbs : Int)), ((b.natAbs : Int))) = Except.ok (c, a, b)
  rw [Int.natAbs_of_nonneg ha, Int.natAbs_of_nonneg hb]

/-- C4 counterexample: the region string "chr1:02-200" is valid (it parses,
like Python `int("02")`), but serializing its parse canonicalizes the
leading zero, so `serialize (parse s) = s` fails for this valid `s`. -/
theorem round_trip_leading_zero_counterexample :
    parse_region_string "chr1:02-200" = Except.ok ("chr1", 2, 200)
      ∧ Interval.from_region_string "chr1:02-200" = Except.ok ⟨"chr1", some 2, some 200⟩
      ∧ Interval.to_region_string ⟨"chr1", some 2, some 200⟩ = "chr1:2-200"
      ∧ "chr1:2-200" ≠ "chr1:02-200" := by
  decide

/-- C4 (amended): parsing "chr1:2-200" yields contig "chr1", start 2, end
200; the round trip holds in the parse-after-serialize direction — for every
interval with non-negative coordinates and a contig free of ':' ,
`parse (serialize i) = i`, so `serialize (parse s) = s` for every valid `s`
in canonical form (coordinates written without leading zeros) — and an
interval with `start = None` serializes to the bare contig string. -/
theorem region_string_round_trip_amended (c : String) (a b : Int) (ha : 0 ≤ a) (hb : 0 ≤ b)
    (hc : ':' ∉ c.data) (c₂ : String) (e : Option Int) :
    parse_region_string "chr1:2-200" = Except.ok ("chr1", 2, 200)
      ∧ Interval.from_region_string (Interval.to_region_string ⟨c, some a, some b⟩)
          = Except.ok ⟨c, some a, some b⟩
      ∧ Interval.to_region_string ⟨c₂, none, e⟩ = c₂ := by
  refine ⟨by decide, ?_, rfl⟩
  rw [Interval.from_region_string, parse_to_region_string c a b ha hb hc]
  rfl

theorem region_string_round_trip_amended_witness :
    parse_region_string "chr1:2-200" = Except.ok ("chr1", 2, 200)
      ∧ Interval.from_region_string (Interval.to_region_string ⟨"chr1", some 2, some 200⟩)
          = Except.ok ⟨"chr1", some 2, some 200⟩
      ∧ Interval.to_region_string ⟨"chrX", none, some 5⟩ = "chrX" :=
  region_string_round_trip_amended "chr1" 2 200 (by decide) (by decide) (by decide)
    "chrX" (some 5)

lemma foldl_append_blocks {α β : Type} (g : α → List β) : ∀ (l : List α) (acc : List β),
    l.foldl (fun a p => a ++ g p) acc = acc ++ (l.map g).flatten
  | [], acc => by simp
  | x :: xs, acc => by simp [foldl_append_blocks g xs]

lemma aggregate_eq_flatten (passes : List (BreakpointType × List MaximalFocus)) :
    aggregate_maximal_foci passes
      = (passes.map fun p => run_breakpoint_detection_tail p.1 p.2).flatten := by
  simpa using foldl_append_blocks (fun p => run_breakpoint_detection_tail p.1 p.2) passes []

lemma filter_orderedInsert_mv (k : Nat) (x : MaximalFocus) :
    ∀ l : List MaximalFocus,
      (List.orderedInsert maxValueGE x l).filter (fun y => decide (y.max_value = k))
        = if x.max_value = k then
            x :: l.filter (fun y => decide (y.max_value = k))
          else l.filter (fun y => decide (y.max_value = k))
  | [] => by by_cases hx : x.max_value = k <;> simp [List.orderedInsert, hx]
  | b :: bs => by
    by_cases hxb : maxValueGE x b
    · by_cases hx : x.max_value = k <;>
        simp [List.orderedInsert, hxb, List.filter_cons, hx]
    · have hlt : x.max_value < b.max_value := by
        unfold maxValueGE at hxb
        omega
      have ih := filter_orderedInsert_mv k x bs
      by_cases hx : x.max_value = k
      · have hb : ¬(b.max_value = k) := by omega
        simp [List.orderedInsert, hxb, List.filter_cons, hx, hb, ih]
      · simp [List.orderedInsert, hxb, List.filter_cons, hx, ih]

lemma filter_sorted_by_max_value (k : Nat) :
    ∀ l : List MaximalFocus,
      (sorted_by_max_value_desc l).filter (fun y => decide (y.max_value = k))
        = l.filter (fun y => decide (y.max_value = k))
  | [] => rfl
  | x :: xs => by
    have ih := filter_sorted_by_max_value k xs
    rw [sorted_by_max_value_desc] at ih ⊢
    rw [List.insertionSort, filter_orderedInsert_mv, ih, List.filter_cons]
    by_cases hx : x.max_value = k <;> simp [hx]

/-- Concrete foci for the aggregation counterexample: a G2S pass whose peak
has support 3 followed by an S2G pass whose peak has support 5. -/
def lowFocus : MaximalFocus :=
  ⟨⟨"chr1", some 10, some 11⟩, (8, 12), Orientation.forward, 3, BreakpointType.G2S⟩

def highFocus : MaximalFocus :=
  ⟨⟨"chr2", some 50, some 51⟩, (48, 52), Orientation.reverse, 5, BreakpointType.S2G⟩

/-- C1 counterexample: with two analysed types whose peaks have support 3
(first pass) and 5 (second pass), the concatenated final collection has
`max_value` sequence `[3, 5]` — not sorted descending, because `main` never
re-sorts across types. -/
theorem aggregate_not_globally_sorted :
    ((aggregate_maximal_foci
          [(BreakpointType.G2S, [lowFocus]), (BreakpointType.S2G, [highFocus])]).map
        MaximalFocus.max_value = [3, 5])
      ∧ ¬ List.Sorted maxValueGE
          (aggregate_maximal_foci
            [(BreakpointType.G2S, [lowFocus]), (BreakpointType.S2G, [highFocus])]) := by
  constructor
  · decide
  · decide

/-- C1 (amended): the final collection is the concatenation, in analysis
order, of the per-type results; each per-type result is sorted by
`max_value` descending and is stable — foci with any given `max_value`
appear in their original detection order — but the concatenation is not
re-sorted globally. -/
theorem per_type_sort_desc_stable (passes : List (BreakpointType × List MaximalFocus))
    (bt : BreakpointType) (peaks : List MaximalFocus) (k : Nat) :
    (aggregate_maximal_foci passes
        = (passes.map fun p => run_breakpoint_detection_tail p.1 p.2).flatten)
      ∧ List.Sorted maxValueGE (run_breakpoint_detection_tail bt peaks)
      ∧ ((run_breakpoint_detection_tail bt peaks).filter (fun y => decide (y.max_value = k))
          = (peaks.filter (fun y => decide (y.max_value = k))).map (set_breakpoint_type bt)) := by
  refine ⟨aggregate_eq_flatten passes, ?_, ?_⟩
  · exact List.Pairwise.map _ (fun a b h => h)
      (List.sorted_insertionSort maxValueGE peaks)
  · rw [run_breakpoint_detection_tail, List.filter_map]
    congr 1
    exact filter_sorted_by_max_value k peaks

end Delfies
